import Mathlib

/-!
# Star pattern printer (`src/backend/WORKING_CPP_CODE.cpp`)

The whole program is the function `main`:

```
int rows;
cout << "Enter the number of rows for the star pattern: ";
cin >> rows;
for (int i = 1; i <= rows; ++i) {
    for (int j = 1; j <= i; ++j) { cout << "* "; }
    cout << endl;
}
return 0;
```

It is embedded as a small-step machine over the state
(value of `rows`, text written to standard output, control point with the
live loop counters).  `int` is the 32-bit two's complement integer: values are
`Int`s and `++` wraps modulo `2 ^ 32`.
-/

namespace StarPattern

/-! ## Machine integers -/

/-- Largest value of the 32-bit `int`. -/
def INT_MAX : Int := 2147483647

/-- Smallest value of the 32-bit `int`. -/
def INT_MIN : Int := -2147483648

/-- Reduction of an integer to the 32-bit two's complement range. -/
def wrap (x : Int) : Int := (x + 2147483648) % 4294967296 - 2147483648

/-- The increment `++x` on a 32-bit `int`, wrapping around at `INT_MAX` as the
two's complement hardware does. -/
def incr (x : Int) : Int := wrap (x + 1)

/-! ## Formatted extraction `cin >> rows` -/

/-- Whitespace skipped by the stream before a token (`isspace` in the "C" locale). -/
def isSpace (c : Char) : Bool :=
  c == ' ' || c == '\t' || c == '\n' || c == '\x0b' || c == '\x0c' || c == '\r'

/-- Value of a run of decimal digits, most significant first. -/
def digitsValue (ds : List Char) : Nat :=
  ds.foldl (fun acc c => 10 * acc + (c.toNat - '0'.toNat)) 0

/-- Saturation of a parsed value to the range of `int`. -/
def clamp (v : Int) : Int :=
  if v < INT_MIN then INT_MIN else if INT_MAX < v then INT_MAX else v

/-- The input with its leading whitespace removed. -/
def skipSpace (input : List Char) : List Char := input.dropWhile isSpace

/-- The decimal digits of a token, after its optional sign. -/
def signedDigits : List Char → List Char
  | [] => []
  | c :: cs => (if c == '-' || c == '+' then cs else c :: cs).takeWhile Char.isDigit

/-- The value a token denotes by its optional sign and its decimal digits,
before saturation to the range of `int`. -/
def tokenValue : List Char → Int
  | [] => 0
  | c :: cs =>
    if c == '-' then -(digitsValue (signedDigits (c :: cs)) : Int)
    else (digitsValue (signedDigits (c :: cs)) : Int)

/-- The value of `rows` after `cin >> rows` (`std::istream::operator>>(int&)`
as specified since C++11), given the characters on standard
input and the value `old` the variable held before.  Leading whitespace is
skipped; when the input ends there, no token is available, the extraction
does nothing and the variable keeps `old`.  Otherwise an optional sign and the
longest run of decimal digits are read: without a digit the extraction fails
and stores `0`, with digits it stores their value saturated to `int`. -/
def extractInt (input : List Char) (old : Int) : Int :=
  match skipSpace input with
  | [] => old
  | c :: cs =>
    let ds := signedDigits (c :: cs)
    if ds.isEmpty then 0
    else if c == '-' then clamp (-(digitsValue ds : Int))
    else clamp (digitsValue ds : Int)

/-! ## The machine -/

/-- The prompt written by the first statement of `main`. -/
def prompt : String := "Enter the number of rows for the star pattern: "

/-- Control points of `main`, each with the loop counters alive there. -/
inductive Loc where
  /-- Before `cout << "Enter ..."`. -/
  | start
  /-- Before `cin >> rows`. -/
  | read
  /-- At the test `i <= rows` of the outer loop. -/
  | outerTest (i : Int)
  /-- At the test `j <= i` of the inner loop. -/
  | innerTest (i j : Int)
  /-- Before `return 0`. -/
  | afterLoop
  /-- After `main` has returned `status`. -/
  | returned (status : Int)
  deriving DecidableEq, Repr

/-- Machine state: the variable `rows`, the standard output so far, and the
control point. -/
structure State where
  rows : Int
  out : String
  loc : Loc
  deriving DecidableEq, Repr

/-- One step of `main` on standard input `stdin`. -/
def step (stdin : String) (s : State) : State :=
  match s.loc with
  | .start => { s with out := s.out ++ prompt, loc := .read }
  | .read => { s with rows := extractInt stdin.toList s.rows, loc := .outerTest 1 }
  | .outerTest i =>
    if i ≤ s.rows then { s with loc := .innerTest i 1 }
    else { s with loc := .afterLoop }
  | .innerTest i j =>
    if j ≤ i then { s with out := s.out ++ "* ", loc := .innerTest i (incr j) }
    else { s with out := s.out ++ "\n", loc := .outerTest (incr i) }
  | .afterLoop => { s with loc := .returned 0 }
  | .returned _ => s

/-- The machine after `fuel` steps. -/
def run (stdin : String) : Nat → State → State
  | 0, s => s
  | fuel + 1, s => run stdin fuel (step stdin s)

/-- Initial state of `main`: `int rows;` has no initialiser, so the variable
holds an indeterminate value `indet`; nothing has been written. -/
def initial (indet : Int) : State := { rows := indet, out := "", loc := .start }

/-- The result of `main` within `fuel` steps: the complete standard output and
the exit status once `main` has returned, `none` while it is still running. -/
def main (stdin : String) (indet : Int) (fuel : Nat) : Option (String × Int) :=
  let s := run stdin fuel (initial indet)
  match s.loc with
  | .returned status => some (s.out, status)
  | _ => none

/-! ## The pattern in the words of the specification -/

/-- The token `"* "` repeated `k` times. -/
def repeatToken : Nat → String
  | 0 => ""
  | k + 1 => repeatToken k ++ "* "

/-- The lines `1 .. n` of the pattern, line `i` being the token repeated `i` times. -/
def patternLines (n : Nat) : List String :=
  (List.range n).map (fun k => repeatToken (k + 1))

/-- Concatenation of lines, each terminated by a newline. -/
def concatLines : List String → String
  | [] => ""
  | l :: ls => l ++ "\n" ++ concatLines ls

/-- The rows `1 .. n`, each followed by a newline. -/
def pattern : Nat → String
  | 0 => ""
  | n + 1 => pattern n ++ repeatToken (n + 1) ++ "\n"

/-- Number of machine steps spent in the rows `1 .. k` of the loop: row `a`
takes one outer test, `a` inner iterations and one failing inner test. -/
def loopFuel : Nat → Nat
  | 0 => 0
  | k + 1 => loopFuel k + (k + 3)

/-- The state right after `cin >> rows` stored `r`. -/
def afterRead (r : Int) : State := { rows := r, out := prompt, loc := .outerTest 1 }

/-- States from which `main` stays in the loop for ever when the row count is
`INT_MAX`: the test `i <= rows` cannot fail for a 32-bit `i`. -/
def Looping (stdin : String) (s : State) : Prop :=
  match s.loc with
  | .start => extractInt stdin.toList s.rows = 2147483647
  | .read => extractInt stdin.toList s.rows = 2147483647
  | .outerTest i => s.rows = 2147483647 ∧ i ≤ 2147483647
  | .innerTest _ _ => s.rows = 2147483647
  | .afterLoop => False
  | .returned _ => False

/-- Invariant of the run for a row count of at most `2 ^ 31 - 2`: the outer
counter lies between `1` and `max rows 0 + 1`, inside the inner loop it is at
most `rows`, and the inner counter lies between `1` and `i + 1`. -/
def LoopInv (stdin : String) (s : State) : Prop :=
  match s.loc with
  | .start => extractInt stdin.toList s.rows ≤ 2147483646
  | .read => extractInt stdin.toList s.rows ≤ 2147483646
  | .outerTest i => s.rows ≤ 2147483646 ∧ 1 ≤ i ∧ i ≤ max s.rows 0 + 1
  | .innerTest i j => s.rows ≤ 2147483646 ∧ 1 ≤ i ∧ i ≤ s.rows ∧ 1 ≤ j ∧ j ≤ i + 1
  | .afterLoop => True
  | .returned _ => True

/-! ## Basic facts about the machine -/

theorem incr_eq (x : Int) (h1 : -2147483649 ≤ x) (h2 : x ≤ 2147483646) : incr x = x + 1 := by
  unfold incr wrap
  omega

theorem incr_le_max (x : Int) : incr x ≤ 2147483647 := by
  unfold incr wrap
  omega

theorem run_add (stdin : String) (a b : Nat) (s : State) :
    run stdin (a + b) s = run stdin b (run stdin a s) := by
  induction a generalizing s with
  | zero => simp [run]
  | succ a ih =>
    have h : a + 1 + b = (a + b) + 1 := by omega
    rw [h]
    simp only [run]
    exact ih (step stdin s)

theorem run_succ (stdin : String) (a : Nat) (s : State) :
    run stdin (a + 1) s = step stdin (run stdin a s) := by
  rw [run_add]
  rfl

theorem run_returned (stdin : String) (fuel : Nat) (s : State) (status : Int)
    (h : s.loc = Loc.returned status) : run stdin fuel s = s := by
  induction fuel with
  | zero => rfl
  | succ n ih =>
    rw [run_succ, ih]
    simp [step, h]

theorem run_two_initial (stdin : String) (indet : Int) :
    run stdin 2 (initial indet) = afterRead (extractInt stdin.toList indet) := by
  simp [run, step, initial, afterRead, prompt]

theorem run_inner (stdin : String) (r : Int) (o : String) (a m : Nat)
    (hm : m ≤ a) (ha : a ≤ 2147483646) :
    run stdin m { rows := r, out := o, loc := Loc.innerTest a 1 }
      = { rows := r, out := o ++ repeatToken m, loc := Loc.innerTest a (m + 1) } := by
  induction m with
  | zero => simp [run, repeatToken]
  | succ m ih =>
    have hlt : ((m : Int) + 1) ≤ (a : Int) := by omega
    rw [run_succ, ih (by omega)]
    have hinc : incr ((m : Int) + 1) = (m : Int) + 1 + 1 := incr_eq _ (by omega) (by omega)
    simp [step, hlt, hinc, repeatToken, String.append_assoc]

theorem run_row (stdin : String) (r : Int) (o : String) (a : Nat)
    (har : (a : Int) ≤ r) (ha : a ≤ 2147483646) :
    run stdin (a + 2) { rows := r, out := o, loc := Loc.outerTest a }
      = { rows := r, out := o ++ repeatToken a ++ "\n", loc := Loc.outerTest (a + 1) } := by
  have h1 : a + 2 = 1 + (a + 1) := by omega
  rw [h1, run_add, run_succ]
  have h2 : run stdin 1 { rows := r, out := o, loc := Loc.outerTest a }
      = { rows := r, out := o, loc := Loc.innerTest a 1 } := by
    simp [run, step, har]
  rw [h2, run_inner stdin r o a a (le_refl a) ha]
  have hinc : incr (a : Int) = (a : Int) + 1 := incr_eq _ (by omega) (by omega)
  simp [step, hinc]

theorem run_loop (stdin : String) (r : Int) (o : String) (k : Nat)
    (hkr : (k : Int) ≤ max r 0) (hk : k ≤ 2147483646) :
    run stdin (loopFuel k) { rows := r, out := o, loc := Loc.outerTest 1 }
      = { rows := r, out := o ++ pattern k, loc := Loc.outerTest (k + 1) } := by
  induction k with
  | zero => simp [run, loopFuel, pattern]
  | succ k ih =>
    have h1 : loopFuel (k + 1) = loopFuel k + ((k + 1) + 2) := by simp [loopFuel]
    rw [h1, run_add, ih (by omega) (by omega)]
    have hkr2 : ((k + 1 : Nat) : Int) ≤ r := by omega
    have h2 := run_row stdin r (o ++ pattern k) (k + 1) hkr2 hk
    simp only [Nat.cast_add, Nat.cast_one] at h2
    rw [h2]
    simp [pattern, String.append_assoc]

/-- Whenever the row count read is at most `2 ^ 31 - 2`, `main` returns `0`
after `loopFuel n + 4` steps, having written the prompt and the rows `1 .. n`,
where `n` is the row count (no row for a negative count). -/
theorem main_returns (stdin : String) (indet : Int)
    (h : extractInt stdin.toList indet ≤ 2147483646) :
    main stdin indet (loopFuel (extractInt stdin.toList indet).toNat + 4)
      = some (prompt ++ pattern (extractInt stdin.toList indet).toNat, 0) := by
  generalize hr : extractInt stdin.toList indet = r at h
  have h1 : loopFuel r.toNat + 4 = 2 + (loopFuel r.toNat + 2) := by omega
  unfold main
  rw [h1, run_add, run_two_initial, hr, run_add]
  unfold afterRead
  have hle : (r.toNat : Int) ≤ max r 0 := by omega
  have hgt : ¬ ((r.toNat : Int) + 1 ≤ r) := by omega
  generalize r.toNat = n at hle hgt
  rw [run_loop stdin r prompt n hle (by omega)]
  simp [run, step, hgt]

/-! ## Determinism -/

theorem main_mono (stdin : String) (indet : Int) (f g : Nat) (res : String × Int)
    (hfg : f ≤ g) (h : main stdin indet f = some res) : main stdin indet g = some res := by
  obtain ⟨d, rfl⟩ := Nat.exists_eq_add_of_le hfg
  unfold main at h ⊢
  rw [run_add]
  generalize run stdin f (initial indet) = s at h ⊢
  cases hl : s.loc with
  | returned status => rw [run_returned stdin d s status hl]; exact h
  | start => simp [hl] at h
  | read => simp [hl] at h
  | outerTest i => simp [hl] at h
  | innerTest i j => simp [hl] at h
  | afterLoop => simp [hl] at h

theorem main_unique (stdin : String) (indet : Int) (f g : Nat) (r1 r2 : String × Int)
    (h1 : main stdin indet f = some r1) (h2 : main stdin indet g = some r2) : r1 = r2 := by
  rcases le_total f g with hfg | hgf
  · have h3 := main_mono stdin indet f g r1 hfg h1
    rw [h3] at h2
    exact Option.some.inj h2
  · have h3 := main_mono stdin indet g f r2 hgf h2
    rw [h3] at h1
    exact (Option.some.inj h1).symm

theorem step_indep (stdin1 stdin2 : String) (s : State) (h : s.loc ≠ Loc.read) :
    step stdin1 s = step stdin2 s := by
  cases hl : s.loc with
  | read => exact absurd hl h
  | start => simp [step, hl]
  | outerTest i => simp [step, hl]
  | innerTest i j => simp [step, hl]
  | afterLoop => simp [step, hl]
  | returned status => simp [step, hl]

theorem step_past_read (stdin : String) (s : State)
    (h : s.loc ≠ Loc.start ∧ s.loc ≠ Loc.read) :
    (step stdin s).loc ≠ Loc.start ∧ (step stdin s).loc ≠ Loc.read := by
  cases hl : s.loc with
  | read => exact absurd hl h.2
  | start => exact absurd hl h.1
  | outerTest i => by_cases hc : i ≤ s.rows <;> simp [step, hl, hc]
  | innerTest i j => by_cases hc : j ≤ i <;> simp [step, hl, hc]
  | afterLoop => simp [step, hl]
  | returned status => simp [step, hl]

theorem run_indep (stdin1 stdin2 : String) (fuel : Nat) (s : State)
    (h : s.loc ≠ Loc.start ∧ s.loc ≠ Loc.read) :
    run stdin1 fuel s = run stdin2 fuel s := by
  induction fuel generalizing s with
  | zero => rfl
  | succ n ih =>
    simp only [run]
    rw [step_indep stdin1 stdin2 s h.2]
    exact ih (step stdin2 s) (step_past_read stdin2 s h)

theorem main_congr (stdin1 stdin2 : String) (indet1 indet2 : Int)
    (h : extractInt stdin1.toList indet1 = extractInt stdin2.toList indet2) (fuel : Nat) :
    main stdin1 indet1 fuel = main stdin2 indet2 fuel := by
  match fuel with
  | 0 => simp [main, run, initial]
  | 1 => simp [main, run, initial, step]
  | d + 2 =>
    have h2 : d + 2 = 2 + d := by omega
    unfold main
    rw [h2, run_add, run_add, run_two_initial, run_two_initial, h]
    rw [run_indep stdin1 stdin2 d _ (by simp [afterRead])]

/-! ## The overflowing row count -/

theorem looping_step (stdin : String) (s : State) (h : Looping stdin s) :
    Looping stdin (step stdin s) := by
  cases hl : s.loc with
  | start => simp [Looping, hl] at h; simp [Looping, step, hl, h]
  | read => simp [Looping, hl] at h; simp [Looping, step, hl, h]
  | outerTest i =>
    simp [Looping, hl] at h
    have hc : i ≤ s.rows := by rw [h.1]; exact h.2
    simp only [step, hl, hc, if_true, Looping]
    exact h.1
  | innerTest i j =>
    simp [Looping, hl] at h
    by_cases hc : j ≤ i
    · simp [Looping, step, hl, hc, h]
    · simp [Looping, step, hl, hc, h, incr_le_max]
  | afterLoop => simp [Looping, hl] at h
  | returned status => simp [Looping, hl] at h

theorem looping_run (stdin : String) (fuel : Nat) (s : State) (h : Looping stdin s) :
    Looping stdin (run stdin fuel s) := by
  induction fuel generalizing s with
  | zero => exact h
  | succ n ih => exact ih (step stdin s) (looping_step stdin s h)

/-- When the row count read is `INT_MAX`, `main` never returns. -/
theorem main_never_returns (stdin : String) (indet : Int)
    (h : extractInt stdin.toList indet = 2147483647) (fuel : Nat) :
    main stdin indet fuel = none := by
  have hl : Looping stdin (run stdin fuel (initial indet)) :=
    looping_run stdin fuel (initial indet) (by simpa [Looping, initial] using h)
  unfold main
  generalize run stdin fuel (initial indet) = s at hl
  cases hs : s.loc with
  | returned status => simp [Looping, hs] at hl
  | afterLoop => simp [Looping, hs] at hl
  | start => simp [hs]
  | read => simp [hs]
  | outerTest i => simp [hs]
  | innerTest i j => simp [hs]

/-! ## Text of the pattern -/

theorem concatLines_append (xs ys : List String) :
    concatLines (xs ++ ys) = concatLines xs ++ concatLines ys := by
  induction xs with
  | nil => simp [concatLines]
  | cons x xs ih => simp [concatLines, ih, String.append_assoc]

theorem pattern_eq_concatLines (n : Nat) : pattern n = concatLines (patternLines n) := by
  induction n with
  | zero => rfl
  | succ n ih =>
    simp [pattern, patternLines, List.range_succ, concatLines_append, concatLines,
      String.append_assoc] at ih ⊢
    rw [ih]

theorem repeatToken_chars (k : Nat) (c : Char) (h : c ∈ (repeatToken k).toList) :
    c = '*' ∨ c = ' ' := by
  induction k with
  | zero => simp [repeatToken] at h
  | succ k ih =>
    simp [repeatToken] at h
    rcases h with h | h | h
    · exact ih h
    · exact Or.inl h
    · exact Or.inr h

theorem repeatToken_succ_left (k : Nat) : repeatToken (k + 1) = "* " ++ repeatToken k := by
  induction k with
  | zero => rfl
  | succ k ih =>
    show repeatToken (k + 1) ++ "* " = "* " ++ (repeatToken k ++ "* ")
    rw [ih, String.append_assoc]

theorem intercalate_go (acc : String) (k : Nat) :
    String.intercalate.go acc " " (List.replicate k "*") ++ " "
      = acc ++ " " ++ repeatToken k := by
  induction k generalizing acc with
  | zero => simp [String.intercalate.go, repeatToken]
  | succ k ih =>
    simp only [List.replicate_succ, String.intercalate.go]
    rw [ih, repeatToken_succ_left]
    have h : "*" ++ " " = "* " := by decide
    rw [← h]
    simp only [String.append_assoc]

/-- For `i ≥ 1`, joining `i` asterisks by single spaces and adding one more space gives the line. -/
theorem repeatToken_eq_intercalate (k : Nat) :
    repeatToken (k + 1) = " ".intercalate (List.replicate (k + 1) "*") ++ " " := by
  simp only [List.replicate_succ, String.intercalate]
  rw [intercalate_go, repeatToken_succ_left]
  have h : "*" ++ " " = "* " := by decide
  rw [← h]

theorem string_append_cancel (a b c : String) (h : a ++ b = a ++ c) : b = c := by
  have h2 := congrArg String.data h
  simp only [String.data_append, List.append_cancel_left_eq] at h2
  exact String.ext h2

theorem patternLines_get (n i : Nat) (h1 : 1 ≤ i) (hn : i ≤ n) :
    (patternLines n)[i - 1]? = some (repeatToken i) := by
  have h2 : i - 1 < n := by omega
  have h3 : i - 1 + 1 = i := by omega
  simp [patternLines, List.getElem?_range, h2, h3]

theorem patternLines_no_newline (n : Nat) (l : String) (h : l ∈ patternLines n) :
    '\n' ∉ l.toList := by
  simp only [patternLines, List.mem_map] at h
  obtain ⟨k, -, rfl⟩ := h
  intro hc
  rcases repeatToken_chars (k + 1) '\n' hc with h | h
  · exact absurd h (by decide)
  · exact absurd h (by decide)

theorem main_some (stdin : String) (indet : Int) (fuel : Nat) (o : String) (st : Int)
    (h : main stdin indet fuel = some (o, st)) :
    (run stdin fuel (initial indet)).loc = Loc.returned st
      ∧ (run stdin fuel (initial indet)).out = o := by
  unfold main at h
  generalize run stdin fuel (initial indet) = s at h
  cases hl : s.loc with
  | returned status => simp [hl] at h; simp [h]
  | start => simp [hl] at h
  | read => simp [hl] at h
  | outerTest i => simp [hl] at h
  | innerTest i j => simp [hl] at h
  | afterLoop => simp [hl] at h

theorem prompt_prefix_step (stdin : String) (s : State) (hs : s.loc ≠ Loc.start)
    (hp : ∃ rest, s.out = prompt ++ rest) :
    (step stdin s).loc ≠ Loc.start ∧ ∃ rest, (step stdin s).out = prompt ++ rest := by
  obtain ⟨rest, hrest⟩ := hp
  cases hl : s.loc with
  | start => exact absurd hl hs
  | read => exact ⟨by simp [step, hl], rest, by simp [step, hl, hrest]⟩
  | outerTest i =>
    by_cases hc : i ≤ s.rows
    · exact ⟨by simp [step, hl, hc], rest, by simp [step, hl, hc, hrest]⟩
    · exact ⟨by simp [step, hl, hc], rest, by simp [step, hl, hc, hrest]⟩
  | innerTest i j =>
    by_cases hc : j ≤ i
    · exact ⟨by simp [step, hl, hc], rest ++ "* ",
        by simp [step, hl, hc, hrest, String.append_assoc]⟩
    · exact ⟨by simp [step, hl, hc], rest ++ "\n",
        by simp [step, hl, hc, hrest, String.append_assoc]⟩
  | afterLoop => exact ⟨by simp [step, hl], rest, by simp [step, hl, hrest]⟩
  | returned status => exact ⟨by simp [step, hl], rest, by simp [step, hl, hrest]⟩

theorem prompt_prefix_run (stdin : String) (fuel : Nat) (s : State) (hs : s.loc ≠ Loc.start)
    (hp : ∃ rest, s.out = prompt ++ rest) :
    ∃ rest, (run stdin fuel s).out = prompt ++ rest := by
  induction fuel generalizing s with
  | zero => exact hp
  | succ n ih =>
    have h := prompt_prefix_step stdin s hs hp
    exact ih (step stdin s) h.1 h.2

theorem run_one_afterRead (stdin : String) (r : Int) (h : r ≤ 0) :
    run stdin 1 (afterRead r) = { rows := r, out := prompt, loc := Loc.afterLoop } := by
  have hc : ¬ (1 ≤ r) := by omega
  simp [run, step, afterRead, hc]

theorem run_three_nonpositive (stdin : String) (indet : Int)
    (h : extractInt stdin.toList indet ≤ 0) :
    run stdin 3 (initial indet)
      = { rows := extractInt stdin.toList indet, out := prompt, loc := Loc.afterLoop } := by
  have h2 : (3 : Nat) = 2 + 1 := rfl
  rw [h2, run_add, run_two_initial, run_one_afterRead stdin _ h]

theorem run_four_nonpositive (stdin : String) (indet : Int)
    (h : extractInt stdin.toList indet ≤ 0) :
    run stdin 4 (initial indet)
      = { rows := extractInt stdin.toList indet, out := prompt, loc := Loc.returned 0 } := by
  rw [run_succ, run_three_nonpositive stdin indet h]
  simp [step]

theorem returned_status_zero (stdin : String) (indet : Int) (fuel : Nat) (status : Int)
    (h : (run stdin fuel (initial indet)).loc = Loc.returned status) : status = 0 := by
  induction fuel with
  | zero => simp [run, initial] at h
  | succ d ih =>
    rw [run_succ] at h
    generalize run stdin d (initial indet) = s at h ih
    cases hl : s.loc with
    | start => simp [step, hl] at h
    | read => simp [step, hl] at h
    | outerTest i => by_cases hc : i ≤ s.rows <;> simp [step, hl, hc] at h
    | innerTest i j => by_cases hc : j ≤ i <;> simp [step, hl, hc] at h
    | afterLoop => simp [step, hl] at h; exact h.symm
    | returned st =>
      simp [step, hl] at h
      exact ih (by rw [hl, h])

theorem run_rows_after_read (stdin : String) (indet : Int) (fuel : Nat) :
    (run stdin (fuel + 2) (initial indet)).rows = extractInt stdin.toList indet := by
  have hrun : ∀ (d : Nat) (s : State), s.loc ≠ Loc.start ∧ s.loc ≠ Loc.read →
      (run stdin d s).rows = s.rows := by
    intro d
    induction d with
    | zero => intro s _; rfl
    | succ d ih =>
      intro s hs
      simp only [run]
      rw [ih (step stdin s) (step_past_read stdin s hs)]
      cases hl : s.loc with
      | read => exact absurd hl hs.2
      | start => simp [step, hl]
      | outerTest i => by_cases hc : i ≤ s.rows <;> simp [step, hl, hc]
      | innerTest i j => by_cases hc : j ≤ i <;> simp [step, hl, hc]
      | afterLoop => simp [step, hl]
      | returned status => simp [step, hl]
  have h2 : fuel + 2 = 2 + fuel := by omega
  rw [h2, run_add, run_two_initial, hrun fuel _ (by simp [afterRead])]
  rfl

theorem main_nonpositive (stdin : String) (indet : Int)
    (h : extractInt stdin.toList indet ≤ 0) (fuel : Nat) :
    main stdin indet fuel = if 4 ≤ fuel then some (prompt, 0) else none := by
  have h4 := run_four_nonpositive stdin indet h
  have h3 := run_three_nonpositive stdin indet h
  have h2 := run_two_initial stdin indet
  by_cases hf : 4 ≤ fuel
  · obtain ⟨d, rfl⟩ := Nat.exists_eq_add_of_le hf
    rw [if_pos hf]
    unfold main
    rw [run_add, h4, run_returned stdin d _ 0 rfl]
  · rw [if_neg hf]
    have hcases : fuel = 0 ∨ fuel = 1 ∨ fuel = 2 ∨ fuel = 3 := by omega
    unfold main
    rcases hcases with rfl | rfl | rfl | rfl
    · simp [run, initial]
    · simp [run, initial, step]
    · rw [h2]; simp [afterRead]
    · rw [h3]

theorem extractInt_token (input : List Char) (old : Int) (c : Char) (cs : List Char)
    (htok : skipSpace input = c :: cs) (hds : signedDigits (c :: cs) ≠ []) :
    extractInt input old = clamp (tokenValue (c :: cs)) := by
  unfold extractInt
  rw [htok]
  by_cases hc : (c == '-') = true
  · simp [tokenValue, hds, hc]
  · simp [tokenValue, hds, hc]

theorem extractInt_no_digit (input : List Char) (old : Int) (c : Char) (cs : List Char)
    (htok : skipSpace input = c :: cs) (hds : signedDigits (c :: cs) = []) :
    extractInt input old = 0 := by
  unfold extractInt
  rw [htok]
  simp [hds]

/-! ## The claims -/

/-- C1, as stated, fails at the row count `2 ^ 31 - 1`: the test `i <= rows`
then holds for every 32-bit `i`, `main` never returns, and no complete output
of `2 ^ 31 - 1` lines exists. -/
theorem C1_fails_at_INT_MAX :
    extractInt "2147483647".toList 0 = 2147483647 ∧
    ¬ ∃ (fuel : Nat) (lines : List String),
        main "2147483647" 0 fuel = some (prompt ++ concatLines lines, 0)
          ∧ lines.length = 2147483647 := by
  refine ⟨by decide, ?_⟩
  rintro ⟨fuel, lines, h, -⟩
  rw [main_never_returns "2147483647" 0 (by decide) fuel] at h
  exact Option.noConfusion h

/-- C1 (amended): for every `n` with `0 ≤ n ≤ 2 ^ 31 - 2`, when the row count
read is `n`, the output of `main` after the prompt consists of exactly `n`
newline-terminated lines, and line `i` (`1 ≤ i ≤ n`) is exactly the token
`"* "` repeated `i` times; no line contains a line break. -/
theorem C1_lines_are_repeated_tokens (n : Nat) (stdin : String) (indet : Int)
    (hread : extractInt stdin.toList indet = (n : Int)) (hn : n ≤ 2147483646) :
    ∃ (fuel : Nat) (lines : List String),
      main stdin indet fuel = some (prompt ++ concatLines lines, 0)
        ∧ lines.length = n
        ∧ (∀ i, 1 ≤ i → i ≤ n → lines[i - 1]? = some (repeatToken i))
        ∧ (∀ l ∈ lines, '\n' ∉ l.toList) := by
  have h := main_returns stdin indet (by rw [hread]; omega)
  rw [hread, Int.toNat_ofNat, pattern_eq_concatLines] at h
  exact ⟨loopFuel n + 4, patternLines n, h, by simp [patternLines],
    fun i h1 h2 => patternLines_get n i h1 h2, patternLines_no_newline n⟩

/-- C1 at the boundary input `1`: the output after the prompt is the single
line `"* "`. -/
theorem C1_witness :
    extractInt "1".toList 0 = ((1 : Nat) : Int) ∧ (1 : Nat) ≤ 2147483646 ∧
    ∃ (fuel : Nat) (lines : List String),
      main "1" 0 fuel = some (prompt ++ concatLines lines, 0)
        ∧ lines.length = 1
        ∧ (∀ i, 1 ≤ i → i ≤ 1 → lines[i - 1]? = some (repeatToken i))
        ∧ (∀ l ∈ lines, '\n' ∉ l.toList) :=
  ⟨by decide, by decide, C1_lines_are_repeated_tokens 1 "1" 0 (by decide) (by decide)⟩

/-- C2: for every row count `n ≤ 0` read, the loop performs no iteration (the
inner loop is never entered) and the output after the prompt is empty: `main`
returns with exactly the prompt written, and at no time is anything else on
the output. -/
theorem C2_nonpositive_rows_print_nothing (stdin : String) (indet : Int)
    (h : extractInt stdin.toList indet ≤ 0) :
    main stdin indet 4 = some (prompt, 0)
      ∧ (∀ fuel i j, (run stdin fuel (initial indet)).loc ≠ Loc.innerTest i j)
      ∧ (∀ fuel, (run stdin fuel (initial indet)).out = ""
          ∨ (run stdin fuel (initial indet)).out = prompt) := by
  have h4 := run_four_nonpositive stdin indet h
  have hfuel : ∀ fuel, fuel = 0 ∨ fuel = 1 ∨ fuel = 2 ∨ fuel = 3 ∨ ∃ d, fuel = 4 + d := by
    intro fuel
    by_cases h0 : fuel < 4
    · omega
    · exact Or.inr (Or.inr (Or.inr (Or.inr ⟨fuel - 4, by omega⟩)))
  refine ⟨by simp [main, h4], ?_, ?_⟩
  · intro fuel i j
    rcases hfuel fuel with rfl | rfl | rfl | rfl | ⟨d, rfl⟩
    · simp [run, initial]
    · simp [run, initial, step]
    · simp [run, initial, step, prompt]
    · rw [run_three_nonpositive stdin indet h]
      simp
    · rw [run_add, h4, run_returned stdin d _ 0 rfl]
      simp
  · intro fuel
    rcases hfuel fuel with rfl | rfl | rfl | rfl | ⟨d, rfl⟩
    · simp [run, initial]
    · simp [run, initial, step]
    · simp [run, initial, step, prompt]
    · rw [run_three_nonpositive stdin indet h]
      simp
    · rw [run_add, h4, run_returned stdin d _ 0 rfl]
      simp

/-- C2 at the inputs `-3` and `0`. -/
theorem C2_witness :
    (extractInt "-3".toList 0 ≤ 0 ∧
      (main "-3" 0 4 = some (prompt, 0)
        ∧ (∀ fuel i j, (run "-3" fuel (initial 0)).loc ≠ Loc.innerTest i j)
        ∧ (∀ fuel, (run "-3" fuel (initial 0)).out = ""
            ∨ (run "-3" fuel (initial 0)).out = prompt)))
    ∧ (extractInt "0".toList 0 ≤ 0 ∧ main "0" 0 4 = some (prompt, 0)) :=
  ⟨⟨by decide, C2_nonpositive_rows_print_nothing "-3" 0 (by decide)⟩,
   ⟨by decide, (C2_nonpositive_rows_print_nothing "0" 0 (by decide)).1⟩⟩

/-- C3, as stated for every input, fails at the input `2147483647`: `main`
never returns there, so no complete output equal to the prompt followed by
the rows exists. -/
theorem C3_fails_at_INT_MAX :
    ¬ ∃ fuel : Nat, main "2147483647" 0 fuel
        = some (prompt ++ pattern (extractInt "2147483647".toList 0).toNat, 0) := by
  rintro ⟨fuel, h⟩
  rw [main_never_returns "2147483647" 0 (by decide) fuel] at h
  exact Option.noConfusion h

/-- C3 (amended): for every input, from the first step on the standard output
begins with exactly the prompt (nothing is written before it); and whenever
the row count read is at most `2 ^ 31 - 2`, the complete output of `main` is
the prompt immediately followed by the rows `1 .. RowCount`, row `i` being
`"* "` repeated `i` times and then a newline, with nothing after the last
row. -/
theorem C3_output_is_prompt_then_rows (stdin : String) (indet : Int) :
    (∀ fuel, ∃ rest, (run stdin (fuel + 1) (initial indet)).out = prompt ++ rest)
    ∧ (extractInt stdin.toList indet ≤ 2147483646 →
        ∃ fuel, main stdin indet fuel
          = some (prompt ++ pattern (extractInt stdin.toList indet).toNat, 0)) := by
  constructor
  · intro fuel
    have h1 : fuel + 1 = 1 + fuel := by omega
    rw [h1, run_add]
    exact prompt_prefix_run stdin fuel _ (by simp [run, step, initial])
      ⟨"", by simp [run, step, initial]⟩
  · intro h
    exact ⟨_, main_returns stdin indet h⟩

/-- C3 at the input `3`: the whole output is the prompt followed by three rows. -/
theorem C3_witness :
    extractInt "3".toList 0 ≤ 2147483646 ∧
    ∃ fuel, main "3" 0 fuel = some (prompt ++ pattern (extractInt "3".toList 0).toNat, 0) :=
  ⟨by decide, (C3_output_is_prompt_then_rows "3" 0).2 (by decide)⟩

/-- C4, as stated, fails at the largest representable row count
`2 ^ 31 - 1`: with 32-bit wrap-around counters the loop test `i <= rows` can
never fail, and `main` does not reach its return statement for any number of
steps. -/
theorem C4_fails_at_INT_MAX :
    extractInt "2147483647".toList 0 = INT_MAX ∧
    ¬ ∃ fuel : Nat, (main "2147483647" 0 fuel).isSome = true := by
  refine ⟨by decide, ?_⟩
  rintro ⟨fuel, h⟩
  rw [main_never_returns "2147483647" 0 (by decide) fuel] at h
  exact Bool.noConfusion h

/-- C4 (amended): for every row count up to `2 ^ 31 - 2` (negative, zero or
positive), the nested loop terminates: after `loopFuel n + 4` machine steps,
`n` the number of rows, `main` has executed `return 0`, and it stays
returned. -/
theorem C4_terminates_below_INT_MAX (stdin : String) (indet : Int)
    (h : extractInt stdin.toList indet ≤ 2147483646) :
    ∀ g, loopFuel (extractInt stdin.toList indet).toNat + 4 ≤ g →
      (run stdin g (initial indet)).loc = Loc.returned 0 := by
  intro g hg
  have h1 := main_mono stdin indet _ g _ hg (main_returns stdin indet h)
  exact (main_some stdin indet g _ 0 h1).1

/-- C4 at the inputs `-7`, `0` and `2`. -/
theorem C4_witness :
    (extractInt "-7".toList 0 ≤ 2147483646 ∧
      ∀ g, loopFuel (extractInt "-7".toList 0).toNat + 4 ≤ g →
        (run "-7" g (initial 0)).loc = Loc.returned 0)
    ∧ (extractInt "0".toList 0 ≤ 2147483646 ∧
      ∀ g, loopFuel (extractInt "0".toList 0).toNat + 4 ≤ g →
        (run "0" g (initial 0)).loc = Loc.returned 0)
    ∧ (extractInt "2".toList 0 ≤ 2147483646 ∧
      ∀ g, loopFuel (extractInt "2".toList 0).toNat + 4 ≤ g →
        (run "2" g (initial 0)).loc = Loc.returned 0) :=
  ⟨⟨by decide, C4_terminates_below_INT_MAX "-7" 0 (by decide)⟩,
   ⟨by decide, C4_terminates_below_INT_MAX "0" 0 (by decide)⟩,
   ⟨by decide, C4_terminates_below_INT_MAX "2" 0 (by decide)⟩⟩

/-- C5: whenever `main` returns, its exit status is `0`, for every input and
every number of steps (no input makes it return another value); and the loop
does complete, with status `0`, for every row count up to `2 ^ 31 - 2`. -/
theorem C5_exit_status_zero (stdin : String) (indet : Int) :
    (∀ fuel out status, main stdin indet fuel = some (out, status) → status = 0)
    ∧ (extractInt stdin.toList indet ≤ 2147483646 →
        ∃ fuel out, main stdin indet fuel = some (out, 0)) := by
  constructor
  · intro fuel out status h
    exact returned_status_zero stdin indet fuel status (main_some stdin indet fuel out status h).1
  · intro h
    exact ⟨_, _, main_returns stdin indet h⟩

/-- C5 at the input `3`: `main` returns `0` after 16 steps. -/
theorem C5_witness :
    (main "3" 0 16 = some (prompt ++ pattern 3, 0) ∧ (0 : Int) = 0)
    ∧ (extractInt "3".toList 0 ≤ 2147483646 ∧ ∃ fuel out, main "3" 0 fuel = some (out, 0)) :=
  ⟨⟨by decide, (C5_exit_status_zero "3" 0).1 16 (prompt ++ pattern 3) 0 (by decide)⟩,
   ⟨by decide, (C5_exit_status_zero "3" 0).2 (by decide)⟩⟩

/-- C6, as stated, fails on the length: with row count 5 the output after the
prompt is never a string of 30 characters. -/
theorem C6_length_is_not_30 :
    ¬ ∃ (fuel : Nat) (body : String),
        main "5" 0 fuel = some (prompt ++ body, 0) ∧ body.length = 30 := by
  rintro ⟨fuel, body, h, hlen⟩
  have h29 : main "5" 0 29
      = some (prompt ++ "* \n* * \n* * * \n* * * * \n* * * * * \n", 0) := by decide
  have heq := main_unique "5" 0 fuel 29 _ _ h h29
  have hb := string_append_cancel prompt _ _ (Prod.mk.inj heq).1
  rw [hb] at hlen
  exact absurd hlen (by decide)

/-- C6 (amended): with row count 5, the output of `main` after the prompt is
exactly the string `"* \n* * \n* * * \n* * * * \n* * * * * \n"`, which has
35 characters (15 asterisks, 15 spaces, 5 newlines): five lines, each with a
trailing space after its last asterisk and terminated by a newline. -/
theorem C6_five_rows :
    extractInt "5".toList 0 = 5
    ∧ main "5" 0 29 = some (prompt ++ "* \n* * \n* * * \n* * * * \n* * * * * \n", 0)
    ∧ "* \n* * \n* * * \n* * * * \n* * * * * \n".length = 35
    ∧ "* \n* * \n* * * \n* * * * \n* * * * * \n"
        = concatLines ["* ", "* * ", "* * * ", "* * * * ", "* * * * * "] := by
  decide

/-- C7: the result of `main` is a function of the row count alone: two runs
that read the same row count, from whatever standard input and whatever
prior content of the variable, agree after every number of steps, and any two
completed runs have byte-identical output and the same exit status. -/
theorem C7_same_rows_same_result (stdin1 stdin2 : String) (indet1 indet2 : Int)
    (h : extractInt stdin1.toList indet1 = extractInt stdin2.toList indet2) :
    (∀ fuel, main stdin1 indet1 fuel = main stdin2 indet2 fuel)
    ∧ (∀ f g r1 r2, main stdin1 indet1 f = some r1 → main stdin2 indet2 g = some r2 →
        r1 = r2) := by
  refine ⟨main_congr stdin1 stdin2 indet1 indet2 h, ?_⟩
  intro f g r1 r2 h1 h2
  rw [main_congr stdin1 stdin2 indet1 indet2 h f] at h1
  exact main_unique stdin2 indet2 f g r1 r2 h1 h2

/-- C7 at two runs reading the row count 2, from the inputs `2` and ` +2 rows`. -/
theorem C7_witness :
    extractInt "2".toList 0 = extractInt " +2 rows".toList 7 ∧
    ((∀ fuel, main "2" 0 fuel = main " +2 rows" 7 fuel)
    ∧ (∀ f g r1 r2, main "2" 0 f = some r1 → main " +2 rows" 7 g = some r2 → r1 = r2)) :=
  ⟨by decide, C7_same_rows_same_result "2" " +2 rows" 0 7 (by decide)⟩

/-- C8, as stated, fails on three failed reads.  On the empty input no token
is available, the read stores nothing, and with the variable holding `1`
`main` prints one row.  On the token `2147483648`, above the range of `int`,
the read stores `2 ^ 31 - 1` and `main` never returns.  On the token
`-2147483649`, below the range, the read stores `-2 ^ 31`, not `0`. -/
theorem C8_fails_on_failed_reads :
    (skipSpace "".toList = [] ∧ (run "" 2 (initial 1)).rows = 1
      ∧ main "" 1 7 = some (prompt ++ "* \n", 0) ∧ main "" 1 7 ≠ main "0" 1 7)
    ∧ ((run "2147483648" 2 (initial 0)).rows = 2147483647
      ∧ ¬ ∃ fuel : Nat, main "2147483648" 0 fuel = main "0" 0 4)
    ∧ (run "-2147483649" 2 (initial 0)).rows = -2147483648 := by
  refine ⟨by decide, ⟨by decide, ?_⟩, by decide⟩
  rintro ⟨fuel, h⟩
  rw [main_never_returns "2147483648" 0 (by decide) fuel] at h
  exact absurd h (by decide)

/-- C8 (amended): when a token is available but cannot be parsed as an `int`,
`main` uses the value the read stored, at every later state: `0` when the token
has no digit after its optional sign, `-2 ^ 31` when its digits denote a value
below the range of `int`, `2 ^ 31 - 1` when they denote a value above it.  In
the first two cases `main` behaves as for row count 0: it prints the prompt,
prints zero rows and returns `0`. -/
theorem C8_failed_read_of_token (stdin : String) (indet : Int)
    (htok : skipSpace stdin.toList ≠ []) :
    (signedDigits (skipSpace stdin.toList) = [] →
        (∀ fuel, (run stdin (fuel + 2) (initial indet)).rows = 0)
        ∧ main stdin indet 4 = some (prompt, 0)
        ∧ ∀ fuel, main stdin indet fuel = main "0" 0 fuel)
    ∧ (signedDigits (skipSpace stdin.toList) ≠ [] →
        tokenValue (skipSpace stdin.toList) < INT_MIN →
        (∀ fuel, (run stdin (fuel + 2) (initial indet)).rows = INT_MIN)
        ∧ main stdin indet 4 = some (prompt, 0)
        ∧ ∀ fuel, main stdin indet fuel = main "0" 0 fuel)
    ∧ (signedDigits (skipSpace stdin.toList) ≠ [] →
        INT_MAX < tokenValue (skipSpace stdin.toList) →
        ∀ fuel, (run stdin (fuel + 2) (initial indet)).rows = INT_MAX) := by
  obtain ⟨c, cs, hsk⟩ : ∃ c cs, skipSpace stdin.toList = c :: cs := by
    cases hs : skipSpace stdin.toList with
    | nil => exact absurd hs htok
    | cons c cs => exact ⟨c, cs, rfl⟩
  have hzero : ∀ fuel, main "0" 0 fuel = if 4 ≤ fuel then some (prompt, 0) else none :=
    main_nonpositive "0" 0 (by decide)
  rw [hsk]
  refine ⟨?_, ?_, ?_⟩
  · intro hds
    have h0 : extractInt stdin.toList indet = 0 := extractInt_no_digit _ indet c cs hsk hds
    have hm := main_nonpositive stdin indet (by rw [h0])
    refine ⟨fun fuel => by rw [run_rows_after_read, h0], by rw [hm 4]; rfl, ?_⟩
    intro fuel
    rw [hm fuel, hzero fuel]
  · intro hds hlow
    have h0 : extractInt stdin.toList indet = INT_MIN := by
      rw [extractInt_token _ indet c cs hsk hds]
      simp [clamp, hlow]
    have hm := main_nonpositive stdin indet (by rw [h0]; decide)
    refine ⟨fun fuel => by rw [run_rows_after_read, h0], by rw [hm 4]; rfl, ?_⟩
    intro fuel
    rw [hm fuel, hzero fuel]
  · intro hds hhigh
    have h0 : extractInt stdin.toList indet = INT_MAX := by
      rw [extractInt_token _ indet c cs hsk hds]
      have hnot : ¬ tokenValue (c :: cs) < INT_MIN := by
        unfold INT_MIN
        unfold INT_MAX at hhigh
        omega
      simp [clamp, hhigh, hnot]
    intro fuel
    rw [run_rows_after_read, h0]

/-- C8 at the tokens `abc` (no digit), `-2147483649` (below the range of `int`)
and `2147483648` (above it). -/
theorem C8_witness :
    (skipSpace "abc".toList ≠ [] ∧ signedDigits (skipSpace "abc".toList) = []
      ∧ ((∀ fuel, (run "abc" (fuel + 2) (initial 9)).rows = 0)
        ∧ main "abc" 9 4 = some (prompt, 0)
        ∧ ∀ fuel, main "abc" 9 fuel = main "0" 0 fuel))
    ∧ (skipSpace "-2147483649".toList ≠ []
      ∧ signedDigits (skipSpace "-2147483649".toList) ≠ []
      ∧ tokenValue (skipSpace "-2147483649".toList) < INT_MIN
      ∧ ((∀ fuel, (run "-2147483649" (fuel + 2) (initial 9)).rows = INT_MIN)
        ∧ main "-2147483649" 9 4 = some (prompt, 0)
        ∧ ∀ fuel, main "-2147483649" 9 fuel = main "0" 0 fuel))
    ∧ (skipSpace "2147483648".toList ≠ []
      ∧ signedDigits (skipSpace "2147483648".toList) ≠ []
      ∧ INT_MAX < tokenValue (skipSpace "2147483648".toList)
      ∧ ∀ fuel, (run "2147483648" (fuel + 2) (initial 9)).rows = INT_MAX) :=
  ⟨⟨by decide, by decide,
      (C8_failed_read_of_token "abc" 9 (by decide)).1 (by decide)⟩,
   ⟨by decide, by decide, by decide,
      (C8_failed_read_of_token "-2147483649" 9 (by decide)).2.1 (by decide) (by decide)⟩,
   ⟨by decide, by decide, by decide,
      (C8_failed_read_of_token "2147483648" 9 (by decide)).2.2 (by decide) (by decide)⟩⟩

/-- C9, as stated, fails already for one row: line 1 of the output is `"* "`,
with a space between the asterisk and the line break, so the output is never
the prompt followed by `"*"` joined by spaces and the line break; and for the
row count `2 ^ 31 - 1` there is no complete output at all. -/
theorem C9_fails_trailing_space :
    (¬ ∃ fuel : Nat, main "1" 0 fuel
        = some (prompt ++ " ".intercalate (List.replicate 1 "*") ++ "\n", 0))
    ∧ (¬ ∃ (fuel : Nat) (res : String × Int), main "2147483647" 0 fuel = some res) := by
  constructor
  · rintro ⟨fuel, h⟩
    have h7 : main "1" 0 7 = some (prompt ++ "* \n", 0) := by decide
    have heq := main_unique "1" 0 fuel 7 _ _ h h7
    exact absurd heq (by decide)
  · rintro ⟨fuel, res, h⟩
    rw [main_never_returns "2147483647" 0 (by decide) fuel] at h
    exact Option.noConfusion h

/-- C9 (amended): for every row count `n` with `1 ≤ n ≤ 2 ^ 31 - 2` and every
`i` with `1 ≤ i ≤ n`, line `i` of the output consists of `i` asterisks
separated from each other by a single space, followed by one more space and
then the line break: line `i` is `"*"` joined `i` times with `" "`, then
`" "`. -/
theorem C9_line_is_joined_stars_and_space (n : Nat) (stdin : String) (indet : Int)
    (hread : extractInt stdin.toList indet = (n : Int)) (h1 : 1 ≤ n) (hn : n ≤ 2147483646) :
    ∃ (fuel : Nat) (lines : List String),
      main stdin indet fuel = some (prompt ++ concatLines lines, 0)
        ∧ lines.length = n
        ∧ ∀ i, 1 ≤ i → i ≤ n →
            lines[i - 1]? = some (" ".intercalate (List.replicate i "*") ++ " ") := by
  have h := main_returns stdin indet (by rw [hread]; omega)
  rw [hread, Int.toNat_ofNat, pattern_eq_concatLines] at h
  refine ⟨loopFuel n + 4, patternLines n, h, by simp [patternLines], ?_⟩
  intro i hi1 hin
  obtain ⟨k, rfl⟩ : ∃ k, i = k + 1 := ⟨i - 1, by omega⟩
  rw [← repeatToken_eq_intercalate k]
  exact patternLines_get n (k + 1) hi1 hin

/-- C9 at the row count 5 of the example in the source. -/
theorem C9_witness :
    extractInt "5".toList 0 = ((5 : Nat) : Int) ∧ 1 ≤ 5 ∧ 5 ≤ 2147483646 ∧
    ∃ (fuel : Nat) (lines : List String),
      main "5" 0 fuel = some (prompt ++ concatLines lines, 0)
        ∧ lines.length = 5
        ∧ ∀ i, 1 ≤ i → i ≤ 5 →
            lines[i - 1]? = some (" ".intercalate (List.replicate i "*") ++ " ") :=
  ⟨by decide, by decide, by decide,
    C9_line_is_joined_stars_and_space 5 "5" 0 (by decide) (by decide) (by decide)⟩

/-- C10: `rows` is read-only after it is read: every step of the machine
other than the read itself (in particular every step of the outer and of the
inner loop) leaves the `rows` component unchanged, so from the read on `rows`
is the value read, and the value compared by the outer loop test at every
iteration is that value. -/
theorem C10_rows_read_only (stdin : String) :
    (∀ s : State, s.loc ≠ Loc.read → (step stdin s).rows = s.rows)
    ∧ (∀ indet fuel, (run stdin (fuel + 2) (initial indet)).rows
        = extractInt stdin.toList indet)
    ∧ (∀ indet fuel i, (run stdin fuel (initial indet)).loc = Loc.outerTest i →
        (run stdin fuel (initial indet)).rows = extractInt stdin.toList indet) := by
  have hstep : ∀ s : State, s.loc ≠ Loc.read → (step stdin s).rows = s.rows := by
    intro s hs
    cases hl : s.loc with
    | read => exact absurd hl hs
    | start => simp [step, hl]
    | outerTest i => by_cases hc : i ≤ s.rows <;> simp [step, hl, hc]
    | innerTest i j => by_cases hc : j ≤ i <;> simp [step, hl, hc]
    | afterLoop => simp [step, hl]
    | returned status => simp [step, hl]
  have hrun : ∀ (fuel : Nat) (s : State), s.loc ≠ Loc.start ∧ s.loc ≠ Loc.read →
      (run stdin fuel s).rows = s.rows := by
    intro fuel
    induction fuel with
    | zero => intro s _; rfl
    | succ d ih =>
      intro s hs
      simp only [run]
      rw [ih (step stdin s) (step_past_read stdin s hs), hstep s hs.2]
  have hall : ∀ indet fuel, (run stdin (fuel + 2) (initial indet)).rows
      = extractInt stdin.toList indet := by
    intro indet fuel
    have h2 : fuel + 2 = 2 + fuel := by omega
    rw [h2, run_add, run_two_initial, hrun fuel _ (by simp [afterRead])]
    rfl
  refine ⟨hstep, hall, ?_⟩
  intro indet fuel i hloc
  match fuel, hloc with
  | 0, hloc => simp [run, initial] at hloc
  | 1, hloc => simp [run, initial, step] at hloc
  | d + 2, _ => exact hall indet d

/-- C10 on a state inside the inner loop and on the run for the input `3`. -/
theorem C10_witness :
    (({ rows := 3, out := prompt, loc := Loc.innerTest 2 1 } : State).loc ≠ Loc.read ∧
      (step "3" { rows := 3, out := prompt, loc := Loc.innerTest 2 1 }).rows = 3)
    ∧ ((run "3" 5 (initial 0)).loc = Loc.outerTest 2 ∧
      (run "3" 5 (initial 0)).rows = extractInt "3".toList 0) :=
  ⟨⟨by decide, (C10_rows_read_only "3").1 _ (by decide)⟩,
   ⟨by decide, (C10_rows_read_only "3").2.2 0 5 2 (by decide)⟩⟩

/-! ## Counter ranges -/

theorem loopInv_step (stdin : String) (s : State) (h : LoopInv stdin s) :
    LoopInv stdin (step stdin s) := by
  cases hl : s.loc with
  | start => simp only [LoopInv, hl] at h; simpa [LoopInv, step, hl] using h
  | read =>
    simp only [LoopInv, hl] at h
    simp only [LoopInv, step, hl]
    omega
  | outerTest i =>
    simp only [LoopInv, hl] at h
    by_cases hc : i ≤ s.rows
    · simp only [step, hl, hc, if_true, LoopInv]
      exact ⟨h.1, h.2.1, trivial, by omega, by omega⟩
    · simp [step, hl, hc, LoopInv]
  | innerTest i j =>
    simp only [LoopInv, hl] at h
    by_cases hc : j ≤ i
    · have hinc : incr j = j + 1 := incr_eq j (by omega) (by omega)
      simp only [step, hl, hc, if_true, LoopInv, hinc]
      omega
    · have hinc : incr i = i + 1 := incr_eq i (by omega) (by omega)
      simp only [step, hl, hc, if_false, LoopInv, hinc]
      omega
  | afterLoop => simp [step, hl, LoopInv]
  | returned status => simp [step, hl, LoopInv]

theorem loopInv_run (stdin : String) (fuel : Nat) (s : State) (h : LoopInv stdin s) :
    LoopInv stdin (run stdin fuel s) := by
  induction fuel generalizing s with
  | zero => exact h
  | succ n ih => exact ih (step stdin s) (loopInv_step stdin s h)

/-! ## Growth and size of the pattern -/

theorem pattern_add (n d : Nat) : ∃ rest, pattern (n + d) = pattern n ++ rest := by
  induction d with
  | zero => exact ⟨"", by simp⟩
  | succ d ih =>
    obtain ⟨rest, hrest⟩ := ih
    refine ⟨rest ++ repeatToken (n + d + 1) ++ "\n", ?_⟩
    show pattern (n + d) ++ repeatToken (n + d + 1) ++ "\n" = _
    rw [hrest]
    simp only [String.append_assoc]

theorem repeatToken_data (k : Nat) :
    (repeatToken k).toList.count '*' = k ∧ (repeatToken k).toList.count ' ' = k
      ∧ (repeatToken k).toList.count '\n' = 0 ∧ (repeatToken k).length = 2 * k := by
  induction k with
  | zero => simp [repeatToken]
  | succ k ih =>
    obtain ⟨h1, h2, h3, h4⟩ := ih
    have e1 : "* ".toList.count '*' = 1 := by decide
    have e2 : "* ".toList.count ' ' = 1 := by decide
    have e3 : "* ".toList.count '\n' = 0 := by decide
    have e4 : "* ".length = 2 := by decide
    simp only [repeatToken, String.toList, String.data_append, List.count_append,
      String.length_append] at *
    omega

theorem pattern_data (n : Nat) :
    2 * (pattern n).toList.count '*' = n * (n + 1)
      ∧ 2 * (pattern n).toList.count ' ' = n * (n + 1)
      ∧ (pattern n).toList.count '\n' = n ∧ (pattern n).length = n * (n + 2) := by
  induction n with
  | zero => simp [pattern]
  | succ n ih =>
    obtain ⟨h1, h2, h3, h4⟩ := ih
    obtain ⟨r1, r2, r3, r4⟩ := repeatToken_data (n + 1)
    have e1 : "\n".toList.count '*' = 0 := by decide
    have e2 : "\n".toList.count ' ' = 0 := by decide
    have e3 : "\n".toList.count '\n' = 1 := by decide
    have e4 : "\n".length = 1 := by decide
    simp only [pattern, String.toList, String.data_append, List.count_append,
      String.length_append] at *
    refine ⟨?_, ?_, by omega, ?_⟩
    · rw [r1, e1]; nlinarith
    · rw [r2, e2]; nlinarith
    · rw [h4, r4, e4]; ring

theorem pattern_chars (n : Nat) (c : Char) (h : c ∈ (pattern n).toList) :
    c = '*' ∨ c = ' ' ∨ c = '\n' := by
  induction n with
  | zero => simp [pattern] at h
  | succ n ih =>
    simp only [pattern, String.toList, String.data_append, List.mem_append] at h ih
    rcases h with (h | h) | h
    · exact ih h
    · rcases repeatToken_chars (n + 1) c h with h | h
      · exact Or.inl h
      · exact Or.inr (Or.inl h)
    · simp at h
      exact Or.inr (Or.inr h)

/-- C11, as stated for every `n ≥ 0`, fails at `n = 2 ^ 31 - 2`: the output for
the row count `n` exists, but for the row count `n + 1 = 2 ^ 31 - 1` the loop
never ends, so there is no output equal to it with one further row appended. -/
theorem C11_fails_before_INT_MAX :
    (∃ fuel : Nat, main "2147483646" 0 fuel = some (prompt ++ pattern 2147483646, 0))
    ∧ ¬ ∃ fuel : Nat, main "2147483647" 0 fuel
        = some (prompt ++ (pattern 2147483646 ++ repeatToken 2147483647 ++ "\n"), 0) := by
  constructor
  · have h := main_returns "2147483646" 0 (by decide)
    have e : extractInt "2147483646".toList 0 = ((2147483646 : Nat) : Int) := by decide
    rw [e, Int.toNat_ofNat] at h
    exact ⟨_, h⟩
  · rintro ⟨fuel, h⟩
    rw [main_never_returns "2147483647" 0 (by decide) fuel] at h
    exact Option.noConfusion h

/-- C11 (amended): for every `n ≥ 0` with `n + 1 ≤ 2 ^ 31 - 2`, the output of
the loop for row count `n + 1` equals the output for row count `n` with one
further row appended, that row being `"* "` repeated `n + 1` times followed by
a newline; consequently the output for `n` is a prefix of the output for
every `m` with `n ≤ m ≤ 2 ^ 31 - 2`. -/
theorem C11_one_more_row :
    (∀ (n : Nat) (stdin1 stdin2 : String) (indet1 indet2 : Int),
        n + 1 ≤ 2147483646 →
        extractInt stdin1.toList indet1 = (n : Int) →
        extractInt stdin2.toList indet2 = ((n + 1 : Nat) : Int) →
        ∃ (f1 f2 : Nat) (body : String),
          main stdin1 indet1 f1 = some (prompt ++ body, 0)
          ∧ main stdin2 indet2 f2
              = some (prompt ++ (body ++ repeatToken (n + 1) ++ "\n"), 0))
    ∧ (∀ (n m : Nat) (stdin1 stdin2 : String) (indet1 indet2 : Int),
        n ≤ m → m ≤ 2147483646 →
        extractInt stdin1.toList indet1 = (n : Int) →
        extractInt stdin2.toList indet2 = (m : Int) →
        ∃ (f1 f2 : Nat) (body rest : String),
          main stdin1 indet1 f1 = some (prompt ++ body, 0)
          ∧ main stdin2 indet2 f2 = some (prompt ++ (body ++ rest), 0)) := by
  constructor
  · intro n stdin1 stdin2 indet1 indet2 hn h1 h2
    have r1 := main_returns stdin1 indet1 (by rw [h1]; omega)
    have r2 := main_returns stdin2 indet2 (by rw [h2]; omega)
    rw [h1, Int.toNat_ofNat] at r1
    rw [h2, Int.toNat_ofNat] at r2
    exact ⟨_, _, pattern n, r1, r2⟩
  · intro n m stdin1 stdin2 indet1 indet2 hnm hm h1 h2
    have r1 := main_returns stdin1 indet1 (by rw [h1]; omega)
    have r2 := main_returns stdin2 indet2 (by rw [h2]; omega)
    rw [h1, Int.toNat_ofNat] at r1
    rw [h2, Int.toNat_ofNat] at r2
    obtain ⟨d, rfl⟩ := Nat.exists_eq_add_of_le hnm
    obtain ⟨rest, hrest⟩ := pattern_add n d
    rw [hrest] at r2
    exact ⟨_, _, pattern n, rest, r1, r2⟩

/-- C11 at the row counts 2 and 3, and at the row counts 1 and 3. -/
theorem C11_witness :
    ((2 : Nat) + 1 ≤ 2147483646 ∧ extractInt "2".toList 0 = ((2 : Nat) : Int)
      ∧ extractInt "3".toList 0 = ((2 + 1 : Nat) : Int)
      ∧ ∃ (f1 f2 : Nat) (body : String),
          main "2" 0 f1 = some (prompt ++ body, 0)
          ∧ main "3" 0 f2 = some (prompt ++ (body ++ repeatToken (2 + 1) ++ "\n"), 0))
    ∧ ((1 : Nat) ≤ 3 ∧ (3 : Nat) ≤ 2147483646 ∧ extractInt "1".toList 0 = ((1 : Nat) : Int)
      ∧ extractInt "3".toList 0 = ((3 : Nat) : Int)
      ∧ ∃ (f1 f2 : Nat) (body rest : String),
          main "1" 0 f1 = some (prompt ++ body, 0)
          ∧ main "3" 0 f2 = some (prompt ++ (body ++ rest), 0)) :=
  ⟨⟨by decide, by decide, by decide,
      C11_one_more_row.1 2 "2" "3" 0 0 (by decide) (by decide) (by decide)⟩,
   ⟨by decide, by decide, by decide, by decide,
      C11_one_more_row.2 1 3 "1" "3" 0 0 (by decide) (by decide) (by decide) (by decide)⟩⟩

/-- C12, as stated for every `n ≥ 0`, fails at the row count `2 ^ 31 - 1`: the
loop never ends there, so no output of `n * (n + 2)` characters is produced. -/
theorem C12_fails_at_INT_MAX :
    ¬ ∃ (fuel : Nat) (body : String),
        main "2147483647" 0 fuel = some (prompt ++ body, 0)
          ∧ body.length = 2147483647 * (2147483647 + 2) := by
  rintro ⟨fuel, body, h, -⟩
  rw [main_never_returns "2147483647" 0 (by decide) fuel] at h
  exact Option.noConfusion h

/-- C12 (amended): for every `n` with `0 ≤ n ≤ 2 ^ 31 - 2`, the output of the
loop for row count `n` contains exactly `n * (n + 1) / 2` asterisks, exactly
`n * (n + 1) / 2` spaces and exactly `n` newlines, and no other character, so
its total length is `n * (n + 2)`. -/
theorem C12_character_counts (n : Nat) (stdin : String) (indet : Int)
    (hread : extractInt stdin.toList indet = (n : Int)) (hn : n ≤ 2147483646) :
    ∃ (fuel : Nat) (body : String),
      main stdin indet fuel = some (prompt ++ body, 0)
        ∧ body.toList.count '*' = n * (n + 1) / 2
        ∧ body.toList.count ' ' = n * (n + 1) / 2
        ∧ body.toList.count '\n' = n
        ∧ (∀ c ∈ body.toList, c = '*' ∨ c = ' ' ∨ c = '\n')
        ∧ body.length = n * (n + 2) := by
  have h := main_returns stdin indet (by rw [hread]; omega)
  rw [hread, Int.toNat_ofNat] at h
  obtain ⟨h1, h2, h3, h4⟩ := pattern_data n
  refine ⟨loopFuel n + 4, pattern n, h, ?_, ?_, h3, pattern_chars n, h4⟩
  · generalize n * (n + 1) = t at h1
    omega
  · generalize n * (n + 1) = t at h2
    omega

/-- C12 at the row count 5: 15 asterisks, 15 spaces, 5 newlines, 35 characters. -/
theorem C12_witness :
    extractInt "5".toList 0 = ((5 : Nat) : Int) ∧ (5 : Nat) ≤ 2147483646 ∧
    ∃ (fuel : Nat) (body : String),
      main "5" 0 fuel = some (prompt ++ body, 0)
        ∧ body.toList.count '*' = 5 * (5 + 1) / 2
        ∧ body.toList.count ' ' = 5 * (5 + 1) / 2
        ∧ body.toList.count '\n' = 5
        ∧ (∀ c ∈ body.toList, c = '*' ∨ c = ' ' ∨ c = '\n')
        ∧ body.length = 5 * (5 + 2) :=
  ⟨by decide, by decide, C12_character_counts 5 "5" 0 (by decide) (by decide)⟩

/-- C13: for every row count `rows ≤ 2 ^ 31 - 2`, at every point of the
execution the counters satisfy `1 ≤ i ≤ max rows 0 + 1` (at the outer test
and inside the inner loop) and `1 ≤ j ≤ i + 1`, and the increment about to be
executed, `++j` when `j <= i` holds and `++i` when it fails, gives the exact
successor, which lies in the 32-bit signed range: no counter overflows. -/
theorem C13_counters_in_range (stdin : String) (indet : Int) (fuel : Nat)
    (h : extractInt stdin.toList indet ≤ 2147483646) :
    (∀ i, (run stdin fuel (initial indet)).loc = Loc.outerTest i →
        1 ≤ i ∧ i ≤ max (extractInt stdin.toList indet) 0 + 1)
    ∧ (∀ i j, (run stdin fuel (initial indet)).loc = Loc.innerTest i j →
        1 ≤ i ∧ i ≤ max (extractInt stdin.toList indet) 0 + 1 ∧ 1 ≤ j ∧ j ≤ i + 1
        ∧ (j ≤ i → incr j = j + 1 ∧ INT_MIN ≤ j + 1 ∧ j + 1 ≤ INT_MAX)
        ∧ (¬ j ≤ i → incr i = i + 1 ∧ INT_MIN ≤ i + 1 ∧ i + 1 ≤ INT_MAX)) := by
  have hinv : LoopInv stdin (run stdin fuel (initial indet)) :=
    loopInv_run stdin fuel (initial indet) (by simpa [LoopInv, initial] using h)
  match fuel, hinv with
  | 0, _ => constructor <;> intros <;> simp_all [run, initial]
  | 1, _ => constructor <;> intros <;> simp_all [run, initial, step]
  | d + 2, hinv =>
    have hrows := run_rows_after_read stdin indet d
    generalize run stdin (d + 2) (initial indet) = s at hinv hrows
    constructor
    · intro i hl
      simp only [LoopInv, hl] at hinv
      rw [← hrows]
      exact ⟨hinv.2.1, hinv.2.2⟩
    · intro i j hl
      simp only [LoopInv, hl] at hinv
      rw [← hrows]
      obtain ⟨h1, h2, h3, h4, h5⟩ := hinv
      refine ⟨h2, by omega, h4, h5, ?_, ?_⟩
      · intro hc
        exact ⟨incr_eq j (by omega) (by omega), by unfold INT_MIN; omega,
          by unfold INT_MAX; omega⟩
      · intro _
        exact ⟨incr_eq i (by omega) (by omega), by unfold INT_MIN; omega,
          by unfold INT_MAX; omega⟩

/-- C13 on the run for the input `3`, inside the inner loop of row 1 and at the
outer test of row 2. -/
theorem C13_witness :
    (extractInt "3".toList 0 ≤ 2147483646
      ∧ (run "3" 3 (initial 0)).loc = Loc.innerTest 1 1
      ∧ ((1 : Int) ≤ 1 ∧ (1 : Int) ≤ max (extractInt "3".toList 0) 0 + 1
          ∧ (1 : Int) ≤ 1 ∧ (1 : Int) ≤ 1 + 1
          ∧ ((1 : Int) ≤ 1 → incr 1 = 1 + 1 ∧ INT_MIN ≤ 1 + 1 ∧ (1 : Int) + 1 ≤ INT_MAX)
          ∧ (¬ (1 : Int) ≤ 1 → incr 1 = 1 + 1 ∧ INT_MIN ≤ 1 + 1 ∧ (1 : Int) + 1 ≤ INT_MAX)))
    ∧ ((run "3" 5 (initial 0)).loc = Loc.outerTest 2
      ∧ ((1 : Int) ≤ 2 ∧ (2 : Int) ≤ max (extractInt "3".toList 0) 0 + 1)) :=
  ⟨⟨by decide, by decide,
      (C13_counters_in_range "3" 0 3 (by decide)).2 1 1 (by decide)⟩,
   ⟨by decide, (C13_counters_in_range "3" 0 5 (by decide)).1 2 (by decide)⟩⟩

end StarPattern
